import Mathlib

/-!
Verification of the Skytable Rust client's protocol codec (`src/lib.rs`).

Bytes are modelled as natural numbers (ASCII codes), byte buffers as
`List Nat`.  The `Query` struct, its builder operations and its two
serialization paths (`into_raw_query`, `write_query_to_sync`) are embedded
from `src/lib.rs`.  The `types` module (the `IntoSkyhashBytes` /
`IntoSkyhashAction` argument contract) and the `deserializer` module are
declared in `lib.rs` but their sources are not in the repository snapshot;
those parts are modelled from the specification and are marked as such.
-/

/-- Little-endian base-10 digit list of `n`, with explicit fuel so that the
recursion is structural (and hence reduces definitionally); with fuel at
least `n` it agrees with `Nat.digits 10 n`. -/
def decimalDigitsAux : Nat → Nat → List Nat
  | _, 0 => []
  | 0, Nat.succ n => [Nat.succ n]
  | Nat.succ fuel, Nat.succ n => Nat.succ n % 10 :: decimalDigitsAux fuel (Nat.succ n / 10)

/-- The decimal ASCII bytes of a natural number, as produced by Rust's
`usize::to_string().into_bytes()`: most-significant digit first, and the
single byte `"0"` (48) for zero. -/
def natDecimalBytes (n : Nat) : List Nat :=
  if n = 0 then [48] else (decimalDigitsAux n n).reverse.map (fun d => d + 48)

/-- `struct Query { size_count: usize, data: Vec<u8> }` from `src/lib.rs`. -/
structure Query where
  size_count : Nat
  data : List Nat
deriving DecidableEq, Repr

/-- `Query::new_empty()` from `src/lib.rs`: zero count, empty buffer. -/
def Query.new_empty : Query :=
  { size_count := 0, data := [] }

/-- Modelled from the spec: a value satisfying the encodable-value contract
(the `types` module with `IntoSkyhashBytes`/`IntoSkyhashAction` is not in the
source snapshot).  An argument is either a scalar (text, binary or number,
already reduced to its byte representation) or a homogeneous sequence of
scalar byte representations. -/
inductive SkyArg where
  | scalar (bytes : List Nat)
  | sequence (elems : List (List Nat))
deriving DecidableEq, Repr

/-- Modelled from the spec: the self-delimited wire encoding of one scalar
item (each argument carries its own internal length prefix), and the
precondition check: a zero-length byte representation is rejected before any
bytes are written.  The concrete per-item layout is a marker byte `+`, the
decimal length, a newline, the bytes, a newline. -/
def encodeScalarItem (b : List Nat) : Except String (List Nat) :=
  if b.isEmpty then Except.error "argument cannot be empty"
  else Except.ok (43 :: (natDecimalBytes b.length ++ 10 :: b ++ [10]))

/-- Modelled from the spec: append the encodings of a sequence argument's
elements to the buffer, one element at a time, in order. -/
def extendSeq : List (List Nat) → List Nat → Except String (List Nat)
  | [], buf => Except.ok buf
  | b :: bs, buf =>
    match encodeScalarItem b with
    | Except.error e => Except.error e
    | Except.ok c => extendSeq bs (buf ++ c)

/-- Modelled from the spec: the byte-contribution capability
(`IntoSkyhashAction::extend_bytes`): append the argument's wire bytes to a
caller-supplied buffer; a sequence appends each element's encoding
independently, in order.  Failure (an empty scalar representation) is the
model of the fail-fast precondition panic: no partial state escapes. -/
def SkyArg.extend_bytes : SkyArg → List Nat → Except String (List Nat)
  | SkyArg.scalar b, buf => Except.map (fun e => buf ++ e) (encodeScalarItem b)
  | SkyArg.sequence xs, buf => extendSeq xs buf

/-- Modelled from the spec: the item-count capability
(`IntoSkyhashAction::incr_len_by`): a scalar contributes 1, a sequence its
length. -/
def SkyArg.incr_len_by : SkyArg → Nat
  | SkyArg.scalar _ => 1
  | SkyArg.sequence xs => xs.length

/-- `Query::arg` from `src/lib.rs`: `arg.extend_bytes(&mut self.data);
self.size_count += arg.incr_len_by();`.  The panic inside `extend_bytes`
(empty argument) is modelled as an `Except.error` result. -/
def Query.arg (q : Query) (a : SkyArg) : Except String Query :=
  match a.extend_bytes q.data with
  | Except.error e => Except.error e
  | Except.ok d => Except.ok { size_count := q.size_count + a.incr_len_by, data := d }

/-- `Query::new(start)` from `src/lib.rs`: `Self::new_empty().arg(start)`. -/
def Query.new (start : List Nat) : Except String Query :=
  Query.new_empty.arg (SkyArg.scalar start)

/-- `Query::__len` from `src/lib.rs`: the number of items in the datagroup. -/
def Query.len__ (q : Query) : Nat :=
  q.size_count

/-- `Query::get_holding_buffer` from `src/lib.rs`. -/
def Query.get_holding_buffer (q : Query) : List Nat :=
  q.data

/-- `Query::into_raw_query` from `src/lib.rs`: extend with `*1\n`, then `_`,
then the decimal item count, then `\n`, then the holding buffer. -/
def Query.into_raw_query (q : Query) : List Nat :=
  let v : List Nat := []
  let v := v ++ [42, 49, 10]
  let v := v ++ [95]
  let v := v ++ natDecimalBytes q.len__
  let v := v ++ [10]
  let v := v ++ q.get_holding_buffer
  v

/-- `Query::into_raw_query` takes `&self`: embedded as a state-passing call
returning the produced bytes together with the (unchanged) receiver. -/
def Query.into_raw_query_call (q : Query) : List Nat × Query :=
  (q.into_raw_query, q)

/-- `Query::write_query_to_sync` from `src/lib.rs`, with the stream embedded
as the list of bytes written so far and each successful `write_all` appending
its bytes.  Writes `*1\n`, then `_`, the decimal item count, `\n` and the
holding buffer. -/
def Query.write_query_to_sync (q : Query) (stream : List Nat) : List Nat :=
  let stream := stream ++ [42, 49, 10]
  let number_of_items_in_datagroup := natDecimalBytes q.len__
  let stream := stream ++ [95]
  let stream := stream ++ number_of_items_in_datagroup
  let stream := stream ++ [10]
  let stream := stream ++ q.get_holding_buffer
  stream

/-- Appending a list of arguments in order by chained `Query::arg` calls. -/
def Query.appendAll (q : Query) : List SkyArg → Except String Query
  | [] => Except.ok q
  | a :: args =>
    match q.arg a with
    | Except.error e => Except.error e
    | Except.ok q1 => q1.appendAll args

/-- Modelled from the spec: the status-code table (`respcode` module absent
from the snapshot).  A closed enumeration with an explicit carrier for codes
the client does not special-case, kept forward-compatible. -/
inductive RespCode where
  | okay
  | unknownCode (code : Nat)
deriving DecidableEq, Repr

/-- Modelled from the spec: static status-code lookup; codes not present in
the table decode to the generic unknown-code element instead of failing. -/
def RespCode.fromCode : Nat → RespCode
  | 0 => RespCode.okay
  | n => RespCode.unknownCode n

/-- The numeric code a conforming server would send for a status element. -/
def RespCode.toCode : RespCode → Nat
  | RespCode.okay => 0
  | RespCode.unknownCode n => n

/-- Modelled from the spec: the response element model (`deserializer` module
absent from the snapshot): scalar string, scalar integer, nested array,
status code, and the explicit null marker. -/
inductive Element where
  | str (s : List Nat)
  | int (n : Nat)
  | arr (xs : List Element)
  | respCode (c : RespCode)
  | nil

/-- A status element is well formed when its unknown-code carrier does not
shadow a code that the table maps to a named variant. -/
def RespCode.wf : RespCode → Bool
  | RespCode.okay => true
  | RespCode.unknownCode n => decide (n ≠ 0)

mutual
/-- Elements producible by a conforming server: every status code in the
element is consistent with the status-code table. -/
def Element.wf : Element → Bool
  | Element.str _ => true
  | Element.int _ => true
  | Element.arr xs => Element.wfList xs
  | Element.respCode c => c.wf
  | Element.nil => true

/-- `Element.wf` over a list of elements. -/
def Element.wfList : List Element → Bool
  | [] => true
  | x :: xs => Element.wf x && Element.wfList xs
end

mutual
/-- Nesting depth of an element; bounds the decoder fuel it needs. -/
def Element.depth : Element → Nat
  | Element.str _ => 1
  | Element.int _ => 1
  | Element.arr xs => 1 + Element.depthList xs
  | Element.respCode _ => 1
  | Element.nil => 1

/-- Maximum `Element.depth` over a list of elements. -/
def Element.depthList : List Element → Nat
  | [] => 0
  | x :: xs => max (Element.depth x) (Element.depthList xs)
end

mutual
/-- Modelled from the spec: the frame a conforming server produces for one
element.  Tags: `+` (43) string with decimal length, newline, bytes, newline;
`:` (58) integer digits then newline; `&` (38) array count then each element;
`!` (33) status code digits then newline; `-` (45) then newline for null. -/
def Element.encodeFrame : Element → List Nat
  | Element.str s => 43 :: (natDecimalBytes s.length ++ 10 :: s ++ [10])
  | Element.int n => 58 :: (natDecimalBytes n ++ [10])
  | Element.arr xs =>
      38 :: (natDecimalBytes xs.length ++ 10 :: Element.encodeFrameList xs)
  | Element.respCode c => 33 :: (natDecimalBytes c.toCode ++ [10])
  | Element.nil => [45, 10]

/-- Concatenation of the frames of a list of elements, in order. -/
def Element.encodeFrameList : List Element → List Nat
  | [] => []
  | x :: xs => Element.encodeFrame x ++ Element.encodeFrameList xs
end

/-- Split a buffer at the first newline (10): the line's bytes and the rest,
or `none` when no newline is present. -/
def readLine : List Nat → Option (List Nat × List Nat)
  | [] => none
  | b :: rest =>
      if b = 10 then some ([], rest)
      else match readLine rest with
        | none => none
        | some (line, rest1) => some (b :: line, rest1)

/-- Parse a non-empty all-digit (48–57) line as a decimal number. -/
def parseDecimal (line : List Nat) : Option Nat :=
  if line.isEmpty then none
  else if line.all (fun b => 48 ≤ b && b ≤ 57) then
    some (line.foldl (fun acc b => acc * 10 + (b - 48)) 0)
  else none

/-- `enum Response` from `src/lib.rs`: invalid response, a decoded item,
parse error, or unsupported data type. -/
inductive Response where
  | InvalidResponse
  | Item (e : Element)
  | ParseError
  | UnsupportedDataType

/-- The three decode-failure kinds of the codec. -/
inductive DecodeFail where
  | invalid
  | parse
  | unsupported
deriving DecidableEq, Repr

mutual
/-- Modelled from the spec: decode one element from the head of the buffer
(tag dispatch, per-tag payload reads), returning the element and the
remaining bytes; fuel makes the recursion through nested arrays evident. -/
def decodeElem : Nat → List Nat → Except DecodeFail (Element × List Nat)
  | 0, _ => Except.error DecodeFail.invalid
  | Nat.succ fuel, bs =>
    match bs with
    | [] => Except.error DecodeFail.invalid
    | tag :: rest =>
      if tag = 43 then
        match readLine rest with
        | none => Except.error DecodeFail.invalid
        | some (line, rest1) =>
          match parseDecimal line with
          | none => Except.error DecodeFail.parse
          | some len =>
            if len + 1 ≤ rest1.length then
              let s := rest1.take len
              match rest1.drop len with
              | 10 :: rest2 => Except.ok (Element.str s, rest2)
              | _ => Except.error DecodeFail.invalid
            else Except.error DecodeFail.invalid
      else if tag = 58 then
        match readLine rest with
        | none => Except.error DecodeFail.invalid
        | some (line, rest1) =>
          match parseDecimal line with
          | none => Except.error DecodeFail.parse
          | some n => Except.ok (Element.int n, rest1)
      else if tag = 38 then
        match readLine rest with
        | none => Except.error DecodeFail.invalid
        | some (line, rest1) =>
          match parseDecimal line with
          | none => Except.error DecodeFail.parse
          | some count => decodeMany fuel count rest1
      else if tag = 33 then
        match readLine rest with
        | none => Except.error DecodeFail.invalid
        | some (line, rest1) =>
          match parseDecimal line with
          | none => Except.error DecodeFail.parse
          | some code => Except.ok (Element.respCode (RespCode.fromCode code), rest1)
      else if tag = 45 then
        match rest with
        | 10 :: rest1 => Except.ok (Element.nil, rest1)
        | _ => Except.error DecodeFail.invalid
      else Except.error DecodeFail.unsupported

/-- Decode `count` consecutive elements, collecting them into an array
element; a short read surfaces as the underlying failure. -/
def decodeMany : Nat → Nat → List Nat → Except DecodeFail (Element × List Nat)
  | 0, _, _ => Except.error DecodeFail.invalid
  | Nat.succ _, 0, bs => Except.ok (Element.arr [], bs)
  | Nat.succ fuel, Nat.succ count, bs =>
    match decodeElem fuel bs with
    | Except.error e => Except.error e
    | Except.ok (e, rest) =>
      match decodeMany fuel count rest with
      | Except.error e2 => Except.error e2
      | Except.ok (Element.arr es, rest1) => Except.ok (Element.arr (e :: es), rest1)
      | Except.ok (_, _) => Except.error DecodeFail.invalid
end

/-- Modelled from the spec: the top-level response decoder.  It consumes
exactly one complete frame: leftover bytes, like any structural failure, are
an `InvalidResponse`; the three failure kinds map onto the `Response`
variants of `src/lib.rs`. -/
def decodeResponse (bs : List Nat) : Response :=
  match decodeElem (bs.length + 1) bs with
  | Except.ok (e, []) => Response.Item e
  | Except.ok (_, _ :: _) => Response.InvalidResponse
  | Except.error DecodeFail.invalid => Response.InvalidResponse
  | Except.error DecodeFail.parse => Response.ParseError
  | Except.error DecodeFail.unsupported => Response.UnsupportedDataType

theorem except_map_map {ε α β γ : Type} (f : β → γ) (g : α → β) (x : Except ε α) :
    Except.map f (Except.map g x) = Except.map (fun a => f (g a)) x := by
  cases x <;> rfl

theorem foldl_digits_rev (L : List Nat) : ∀ acc : Nat,
    L.reverse.foldl (fun a d => a * 10 + d) acc = acc * 10 ^ L.length + Nat.ofDigits 10 L := by
  induction L with
  | nil => intro acc; simp [Nat.ofDigits_nil]
  | cons d T ih =>
    intro acc
    rw [List.reverse_cons, List.foldl_append, ih acc]
    simp only [List.foldl_cons, List.foldl_nil, Nat.ofDigits_cons, List.length_cons, pow_succ]
    ring

theorem decimalDigitsAux_eq : ∀ fuel n, n ≤ fuel → decimalDigitsAux fuel n = Nat.digits 10 n := by
  intro fuel
  induction fuel with
  | zero =>
    intro n hn
    have : n = 0 := Nat.le_zero.mp hn
    simp [this, decimalDigitsAux]
  | succ f ih =>
    intro n hn
    cases n with
    | zero => simp [decimalDigitsAux]
    | succ m =>
      have hdiv : (m + 1) / 10 ≤ f := by
        have := Nat.div_lt_self (Nat.succ_pos m) (by norm_num : (1 : Nat) < 10)
        omega
      rw [decimalDigitsAux, ih ((m + 1) / 10) hdiv,
        Nat.digits_def' (by norm_num : (1 : Nat) < 10) (Nat.succ_pos m)]

theorem natDecimalBytes_eq_digits (n : Nat) :
    natDecimalBytes n =
      if n = 0 then [48] else (Nat.digits 10 n).reverse.map (fun d => d + 48) := by
  by_cases h : n = 0 <;> simp [natDecimalBytes, h, decimalDigitsAux_eq n n le_rfl]

theorem natDecimalBytes_bounds (n : Nat) : ∀ b ∈ natDecimalBytes n, 48 ≤ b ∧ b ≤ 57 := by
  intro b hb
  rw [natDecimalBytes_eq_digits] at hb
  by_cases h : n = 0
  · simp [h] at hb; omega
  · simp [h, List.mem_map, List.mem_reverse] at hb
    obtain ⟨d, hd, rfl⟩ := hb
    have : d < 10 := Nat.digits_lt_base (by norm_num) hd
    omega

theorem natDecimalBytes_ne_nil (n : Nat) : natDecimalBytes n ≠ [] := by
  rw [natDecimalBytes_eq_digits]
  by_cases h : n = 0
  · simp [h]
  · simp [h, Nat.digits_ne_nil_iff_ne_zero.mpr h]

theorem natDecimalBytes_all_digits (n : Nat) :
    (natDecimalBytes n).all (fun b => 48 ≤ b && b ≤ 57) = true := by
  rw [List.all_eq_true]
  intro b hb
  have := natDecimalBytes_bounds n b hb
  simp only [Bool.and_eq_true, decide_eq_true_eq]
  omega

theorem parseDecimal_natDecimalBytes (n : Nat) :
    parseDecimal (natDecimalBytes n) = some n := by
  unfold parseDecimal
  rw [if_neg (by simp [List.isEmpty_iff, natDecimalBytes_ne_nil n]),
      if_pos (natDecimalBytes_all_digits n)]
  by_cases h : n = 0
  · simp [h, natDecimalBytes, decimalDigitsAux]
  · rw [natDecimalBytes_eq_digits, if_neg h, List.foldl_map]
    have heq : ∀ (L : List Nat) (acc : Nat),
        L.foldl (fun a d => a * 10 + (d + 48 - 48)) acc = L.foldl (fun a d => a * 10 + d) acc := by
      intro L
      induction L with
      | nil => intro acc; rfl
      | cons x L ih => intro acc; simp only [List.foldl_cons, Nat.add_sub_cancel, ih]
    rw [heq, foldl_digits_rev, Nat.ofDigits_digits]
    simp

theorem natDecimalBytes_no_newline (n : Nat) : ∀ b ∈ natDecimalBytes n, b ≠ 10 := by
  intro b hb
  have := natDecimalBytes_bounds n b hb
  omega

theorem readLine_append (line rest : List Nat) (h : ∀ b ∈ line, b ≠ 10) :
    readLine (line ++ 10 :: rest) = some (line, rest) := by
  induction line with
  | nil => simp [readLine]
  | cons b l ih =>
    have hb : b ≠ 10 := h b (List.mem_cons_self b l)
    have hl : ∀ x ∈ l, x ≠ 10 := fun x hx => h x (List.mem_cons_of_mem b hx)
    simp only [List.cons_append, readLine, if_neg hb, List.append_eq, ih hl]

theorem extendSeq_shift (xs : List (List Nat)) : ∀ buf : List Nat,
    extendSeq xs buf = Except.map (fun e => buf ++ e) (extendSeq xs []) := by
  induction xs with
  | nil => intro buf; simp [extendSeq, Except.map]
  | cons x xs ih =>
    intro buf
    cases hx : encodeScalarItem x with
    | error e => simp [extendSeq, hx, Except.map]
    | ok c =>
      simp only [extendSeq, hx, List.nil_append]
      rw [ih (buf ++ c), ih c, except_map_map]
      cases extendSeq xs [] with
      | error e => rfl
      | ok t => simp [Except.map, List.append_assoc]

/-- Shifting the initial buffer out of `extend_bytes`: the bytes an argument
contributes do not depend on what is already in the buffer. -/
theorem extend_bytes_shift (a : SkyArg) (buf : List Nat) :
    a.extend_bytes buf = Except.map (fun e => buf ++ e) (a.extend_bytes []) := by
  cases a with
  | scalar b =>
    cases hb : encodeScalarItem b <;>
      simp [SkyArg.extend_bytes, hb, Except.map]
  | sequence xs =>
    simpa [SkyArg.extend_bytes] using extendSeq_shift xs buf

/-- Characterization of a successful `Query::arg` call. -/
theorem arg_ok_iff (q q' : Query) (a : SkyArg) :
    q.arg a = Except.ok q' ↔
      ∃ c, a.extend_bytes [] = Except.ok c ∧
        q' = { size_count := q.size_count + a.incr_len_by, data := q.data ++ c } := by
  unfold Query.arg
  rw [extend_bytes_shift]
  cases h : a.extend_bytes [] with
  | error e => simp [Except.map]
  | ok c =>
    simp only [Except.map, Except.ok.injEq]
    constructor
    · intro he; exact ⟨c, rfl, he.symm⟩
    · rintro ⟨c2, hc2, rfl⟩
      cases hc2
      rfl

/-- Modelled from the spec: the stand-alone encodings of a list of arguments,
concatenated in append order (each encoding computed against an empty
buffer). -/
def encodedInOrder : List SkyArg → Except String (List Nat)
  | [] => Except.ok []
  | a :: args =>
    match a.extend_bytes [], encodedInOrder args with
    | Except.ok c, Except.ok cs => Except.ok (c ++ cs)
    | Except.error e, _ => Except.error e
    | Except.ok _, Except.error e => Except.error e

/-- Characterization of a successful chain of `Query::arg` calls: the final
count adds each argument's declared contribution and the final payload is the
initial payload followed by the encodings in append order. -/
theorem appendAll_ok (args : List SkyArg) : ∀ q q' : Query,
    q.appendAll args = Except.ok q' →
      q'.size_count = q.size_count + (args.map SkyArg.incr_len_by).sum ∧
      ∃ cs, encodedInOrder args = Except.ok cs ∧ q'.data = q.data ++ cs := by
  induction args with
  | nil =>
    intro q q' h
    have hq : q = q' := by
      simpa [Query.appendAll] using h
    subst hq
    exact ⟨by simp, [], rfl, by simp⟩
  | cons a args ih =>
    intro q q' h
    rw [Query.appendAll] at h
    cases ha : q.arg a with
    | error e => rw [ha] at h; simp at h
    | ok q1 =>
      rw [ha] at h
      simp only [] at h
      obtain ⟨hcount, cs, hcs, hdata⟩ := ih q1 q' h
      obtain ⟨c, hc, rfl⟩ := (arg_ok_iff q q1 a).mp ha
      refine ⟨by simp at hcount ⊢; omega, c ++ cs, ?_, ?_⟩
      · simp [encodedInOrder, hc, hcs]
      · simp at hdata
        simp [hdata, List.append_assoc]

/-- Claim C1: for every query, `into_raw_query()` returns exactly the bytes
`*1`, newline, `_`, the decimal ASCII item count, newline, then the payload
buffer, in that order and nothing else; the count bytes are ASCII digits
whose decimal reading is the item count. -/
theorem into_raw_query_frame_format (q : Query) :
    q.into_raw_query =
      [42, 49] ++ [10] ++ [95] ++ natDecimalBytes q.size_count ++ [10] ++ q.data ∧
    parseDecimal (natDecimalBytes q.size_count) = some q.size_count ∧
    (natDecimalBytes q.size_count).all (fun b => 48 ≤ b && b ≤ 57) = true := by
  refine ⟨?_, parseDecimal_natDecimalBytes q.size_count, natDecimalBytes_all_digits q.size_count⟩
  simp [Query.into_raw_query, Query.len__, Query.get_holding_buffer]

/-- Claim C2: after any successful chain of appends, the item count equals
its starting value plus the sum of each argument's declared contribution
(1 per scalar, sequence length per sequence), and it never decreases. -/
theorem query_count_invariant (q q' : Query) (args : List SkyArg)
    (h : q.appendAll args = Except.ok q') :
    q'.size_count = q.size_count + (args.map SkyArg.incr_len_by).sum ∧
    q.size_count ≤ q'.size_count := by
  have hall := appendAll_ok args q q' h
  exact ⟨hall.1, by omega⟩

/-- Witness for claim C2 at a concrete run: a scalar and a two-element
sequence appended to the empty query give a count of 3. -/
theorem query_count_invariant_witness :
    (Query.mk 3 [43, 49, 10, 97, 10, 43, 49, 10, 98, 10, 43, 49, 10, 99, 10]).size_count =
      Query.new_empty.size_count +
        (([SkyArg.scalar [97], SkyArg.sequence [[98], [99]]]).map SkyArg.incr_len_by).sum ∧
    Query.new_empty.size_count ≤
      (Query.mk 3 [43, 49, 10, 97, 10, 43, 49, 10, 98, 10, 43, 49, 10, 99, 10]).size_count :=
  query_count_invariant Query.new_empty
    (Query.mk 3 [43, 49, 10, 97, 10, 43, 49, 10, 98, 10, 43, 49, 10, 99, 10])
    [SkyArg.scalar [97], SkyArg.sequence [[98], [99]]] (by rfl)

/-- Claim C3: appending an empty text or empty byte argument fails at the
`arg` call itself: the call returns the precondition error, so no query with
partially mutated payload or count is ever produced from it. -/
theorem empty_argument_rejected (q : Query) :
    q.arg (SkyArg.scalar []) = Except.error "argument cannot be empty" :=
  rfl

/-- Claim C5: `into_raw_query()` takes the query by shared reference: the
call leaves the query exactly as it was, and a second call on the resulting
state yields byte-identical output. -/
theorem into_raw_query_not_mutating (q : Query) :
    q.into_raw_query_call.2 = q ∧
    (q.into_raw_query_call.2).into_raw_query_call.1 = q.into_raw_query_call.1 :=
  ⟨rfl, rfl⟩

/-- Claim C6: `Query::new(s)` is the same query as
`Query::new_empty().arg(s)`, in count and payload alike. -/
theorem new_eq_new_empty_arg (s : List Nat) :
    Query.new s = Query.new_empty.arg (SkyArg.scalar s) :=
  rfl

/-- Claim C7: a successful `arg` call appends the argument's stand-alone
encoding at the end of the payload, reordering nothing, and the serialized
frame then carries the old payload followed by the new bytes. -/
theorem arg_appends_in_order (q q' : Query) (a : SkyArg)
    (h : q.arg a = Except.ok q') :
    ∃ c, a.extend_bytes [] = Except.ok c ∧ q'.data = q.data ++ c ∧
      q'.into_raw_query =
        [42, 49, 10] ++ [95] ++ natDecimalBytes q'.size_count ++ [10] ++ q.data ++ c := by
  obtain ⟨c, hc, rfl⟩ := (arg_ok_iff q q' a).mp h
  exact ⟨c, hc, rfl, by simp [Query.into_raw_query, Query.len__, Query.get_holding_buffer]⟩

/-- Witness for claim C7 at a concrete call: appending `"a"` to the query
holding one item and payload `[5]`. -/
theorem arg_appends_in_order_witness :
    (Query.mk 2 [5, 43, 49, 10, 97, 10]).data =
      (Query.mk 1 [5]).data ++ [43, 49, 10, 97, 10] := by
  obtain ⟨c, h1, h2, h3⟩ :=
    arg_appends_in_order (Query.mk 1 [5]) (Query.mk 2 [5, 43, 49, 10, 97, 10])
      (SkyArg.scalar [97]) (by rfl)
  have h4 : (SkyArg.scalar [97]).extend_bytes [] = Except.ok [43, 49, 10, 97, 10] := by rfl
  rw [h4] at h1
  injection h1 with h1
  rw [← h1] at h2
  exact h2

/-- Claim C8: `Query::new_empty()` has item count zero and a zero-length
payload buffer. -/
theorem new_empty_is_zero :
    Query.new_empty.size_count = 0 ∧ Query.new_empty.data = [] :=
  ⟨rfl, rfl⟩

/-- Claim C9: the bytes `write_query_to_sync` writes to the stream (its
successive successful `write_all` calls concatenated) are exactly the bytes
`into_raw_query` returns for the same query. -/
theorem write_query_to_sync_agrees_raw (q : Query) (stream : List Nat) :
    q.write_query_to_sync stream = stream ++ q.into_raw_query := by
  simp [Query.write_query_to_sync, Query.into_raw_query, Query.len__,
    Query.get_holding_buffer]

/-- Claim C10: an argument-less query serializes without rejection to the
six bytes `*1\n_0\n`: a complete frame with item count 0 and empty
payload. -/
theorem empty_query_serializes_complete :
    Query.new_empty.into_raw_query = [42, 49, 10, 95, 48, 10] :=
  rfl

mutual
/-- Fuel needed by `decodeElem` to decode this element. -/
def Element.fuelSize : Element → Nat
  | Element.arr xs => 1 + Element.fuelSizeList xs
  | _ => 1

/-- Fuel needed by `decodeMany` to decode this list of elements. -/
def Element.fuelSizeList : List Element → Nat
  | [] => 1
  | x :: xs => 1 + Element.fuelSize x + Element.fuelSizeList xs
end

mutual
theorem fuelSize_le_encodeFrame (e : Element) :
    e.fuelSize + 1 ≤ e.encodeFrame.length := by
  cases e with
  | str s =>
    have h := List.length_pos.mpr (natDecimalBytes_ne_nil s.length)
    simp [Element.fuelSize, Element.encodeFrame]
    omega
  | int n =>
    have h := List.length_pos.mpr (natDecimalBytes_ne_nil n)
    simp [Element.fuelSize, Element.encodeFrame]
  | arr xs =>
    have h1 := fuelSizeList_le_encodeFrameList xs
    have h2 := List.length_pos.mpr (natDecimalBytes_ne_nil xs.length)
    simp [Element.fuelSize, Element.encodeFrame]
    omega
  | respCode c =>
    have h := List.length_pos.mpr (natDecimalBytes_ne_nil c.toCode)
    simp [Element.fuelSize, Element.encodeFrame]
  | nil => simp [Element.fuelSize, Element.encodeFrame]

theorem fuelSizeList_le_encodeFrameList (xs : List Element) :
    Element.fuelSizeList xs ≤ (Element.encodeFrameList xs).length + 1 := by
  cases xs with
  | nil => simp [Element.fuelSizeList, Element.encodeFrameList]
  | cons x xs =>
    have h1 := fuelSize_le_encodeFrame x
    have h2 := fuelSizeList_le_encodeFrameList xs
    simp [Element.fuelSizeList, Element.encodeFrameList]
    omega
end

theorem respCode_fromCode_toCode (c : RespCode) (h : c.wf = true) :
    RespCode.fromCode c.toCode = c := by
  cases c with
  | okay => rfl
  | unknownCode n =>
    cases n with
    | zero => simp [RespCode.wf] at h
    | succ m => rfl

theorem fuelSize_pos (e : Element) : 1 ≤ e.fuelSize := by
  cases e <;> simp [Element.fuelSize]

theorem fuelSizeList_pos (xs : List Element) : 1 ≤ Element.fuelSizeList xs := by
  cases xs with
  | nil => simp [Element.fuelSizeList]
  | cons x xs =>
    simp only [Element.fuelSizeList]
    omega

theorem decode_roundtrip_aux (fuel : Nat) :
    (∀ e rest, Element.wf e = true → Element.fuelSize e ≤ fuel →
      decodeElem fuel (Element.encodeFrame e ++ rest) = Except.ok (e, rest)) ∧
    (∀ xs rest, Element.wfList xs = true → Element.fuelSizeList xs ≤ fuel →
      decodeMany fuel xs.length (Element.encodeFrameList xs ++ rest) =
        Except.ok (Element.arr xs, rest)) := by
  induction fuel using Nat.strong_induction_on with
  | _ fuel ih =>
    constructor
    · intro e rest hwf hsz
      cases fuel with
      | zero => exact absurd hsz (by have := fuelSize_pos e; omega)
      | succ f =>
        cases e with
        | str s =>
          have hlen : s.length + 1 ≤ (s ++ 10 :: rest).length := by simp
          simp [Element.encodeFrame, decodeElem, List.append_assoc,
            readLine_append _ _ (natDecimalBytes_no_newline s.length),
            parseDecimal_natDecimalBytes, hlen, List.take_left, List.drop_left]
        | int n =>
          simp [Element.encodeFrame, decodeElem, List.append_assoc,
            readLine_append _ _ (natDecimalBytes_no_newline n),
            parseDecimal_natDecimalBytes]
        | arr xs =>
          have hwf2 : Element.wfList xs = true := by simpa [Element.wf] using hwf
          have hsz2 : Element.fuelSizeList xs ≤ f := by
            simp [Element.fuelSize] at hsz; omega
          have hmany := (ih f (Nat.lt_succ_self f)).2 xs rest hwf2 hsz2
          simp [Element.encodeFrame, decodeElem, List.append_assoc,
            readLine_append _ _ (natDecimalBytes_no_newline xs.length),
            parseDecimal_natDecimalBytes, hmany]
        | respCode c =>
          have hc : c.wf = true := by simpa [Element.wf] using hwf
          simp [Element.encodeFrame, decodeElem, List.append_assoc,
            readLine_append _ _ (natDecimalBytes_no_newline c.toCode),
            parseDecimal_natDecimalBytes, respCode_fromCode_toCode c hc]
        | nil =>
          simp [Element.encodeFrame, decodeElem]
    · intro xs rest hwf hsz
      cases fuel with
      | zero => exact absurd hsz (by have := fuelSizeList_pos xs; omega)
      | succ f =>
        cases xs with
        | nil => simp [Element.encodeFrameList, decodeMany]
        | cons x xs =>
          have hwf1 : Element.wf x = true := by
            simp [Element.wfList] at hwf; exact hwf.1
          have hwf2 : Element.wfList xs = true := by
            simp [Element.wfList] at hwf; exact hwf.2
          have hsz0 : 1 + Element.fuelSize x + Element.fuelSizeList xs ≤ f + 1 := by
            simpa [Element.fuelSizeList] using hsz
          have hx := (ih f (Nat.lt_succ_self f)).1 x (Element.encodeFrameList xs ++ rest)
            hwf1 (by have := fuelSizeList_pos xs; omega)
          have hxs := (ih f (Nat.lt_succ_self f)).2 xs rest hwf2
            (by have := fuelSize_pos x; omega)
          simp [Element.encodeFrameList, decodeMany, List.append_assoc, hx, hxs]

/-- Claim C4: the response decoder is total: every byte sequence yields
exactly one `Response` — all outcomes are ordinary return values among
`Item`, `InvalidResponse`, `ParseError` and `UnsupportedDataType` — and every
frame a conforming server produces for a well-formed element decodes to
`Item` of exactly that element. -/
theorem decodeResponse_total_and_faithful :
    (∀ bs : List Nat,
      decodeResponse bs = Response.InvalidResponse ∨
      decodeResponse bs = Response.ParseError ∨
      decodeResponse bs = Response.UnsupportedDataType ∨
      ∃ e, decodeResponse bs = Response.Item e) ∧
    (∀ e : Element, Element.wf e = true →
      decodeResponse (Element.encodeFrame e) = Response.Item e) := by
  constructor
  · intro bs
    unfold decodeResponse
    cases h : decodeElem (bs.length + 1) bs with
    | error f => cases f <;> simp
    | ok p =>
      obtain ⟨e, rest⟩ := p
      cases rest with
      | nil => exact Or.inr (Or.inr (Or.inr ⟨e, rfl⟩))
      | cons b bs2 => exact Or.inl rfl
  · intro e hwf
    have hfuel : Element.fuelSize e ≤ (Element.encodeFrame e).length + 1 := by
      have := fuelSize_le_encodeFrame e
      omega
    have hrt := (decode_roundtrip_aux ((Element.encodeFrame e).length + 1)).1 e [] hwf hfuel
    rw [List.append_nil] at hrt
    unfold decodeResponse
    rw [hrt]

/-- Witness for claim C4 at a concrete element: a mixed four-element array
(string "HEY!", integer 100, the okay status code, null) round-trips through
encode and decode. -/
theorem decodeResponse_total_and_faithful_witness :
    Element.wf (Element.arr [Element.str [72, 69, 89, 33], Element.int 100,
      Element.respCode RespCode.okay, Element.nil]) = true ∧
    decodeResponse (Element.encodeFrame (Element.arr [Element.str [72, 69, 89, 33],
      Element.int 100, Element.respCode RespCode.okay, Element.nil])) =
      Response.Item (Element.arr [Element.str [72, 69, 89, 33], Element.int 100,
        Element.respCode RespCode.okay, Element.nil]) :=
  ⟨rfl, decodeResponse_total_and_faithful.2
    (Element.arr [Element.str [72, 69, 89, 33], Element.int 100,
      Element.respCode RespCode.okay, Element.nil]) rfl⟩
